import Mathlib

/-!
# Shallow embedding of the `simple-midi-ai` Cary codec

This file embeds the codec of the repository (the MIDI-CSV compressor in
`src/midicsv_compressor/src/main.rs` and the decompressor in
`src/midicsv_decompressor/src/main.rs`) and settles the frozen claims about it.

Modelling conventions:
* A parsed input line is a `List String` of its comma-space-separated fields,
  exactly the `parts` slice the Rust per-line functions receive.
* Rust `f32` arithmetic is modelled with exact rationals (`Rat`); every numeric
  value exercised by a theorem below is a small integer, on which `f32`
  arithmetic is exact.  The `as usize` cast of a float is `Int.floor` followed
  by truncation at zero (`Int.toNat`), matching Rust's saturating cast.
* A function that can panic in Rust (a failed `unwrap`, or an out-of-bounds
  index into a fixed-size array) returns `Option`; `none` models the panic
  (an abort of the whole process).
* The note matrices are total functions; every matrix access the Rust code
  performs is guarded to stay inside the allocated bounds, and where it is
  not (the decompressor's cursor), the bound check appears explicitly and
  failing it yields `none`.
* Characters of the Cary streams are modelled by their ASCII code points
  (`Nat`): the compressor pushes `ascii_code as u8 as char` and the
  decompressor reads `c as i32`, so the code point is the whole content.
-/

namespace SimpleMidi

/-! ## Constants (`midicsv_compressor/src/main.rs`, `midicsv_decompressor/src/main.rs`) -/

def MAX_PITCHES : Nat := 110

def MIN_PITCH : Int := 22

def MAX_TIME_STEPS : Nat := 150000

def TIME_QUANTUM : Nat := 40

def PITCH_RANGE : Nat := 87

def DEC_MAX_TIME_STEPS : Nat := 20000

/-! ## Numeric field parsing

Models of Rust's `str::parse::<usize>`, `parse::<i32>` and `parse::<f32>` on
the simple decimal forms that occur in MIDI-CSV files: an optional sign
followed by decimal digits (and, for floats, an optional fraction part).
Rust's integer parses reject values outside the machine-integer range; the
float parse is modelled exactly over `Rat`.
-/

def digitsToNat (l : List Char) : Nat :=
  l.foldl (fun acc c => acc * 10 + (c.toNat - 48)) 0

def isDigits (l : List Char) : Bool :=
  !l.isEmpty && l.all (fun c => c.isDigit)

def parseNatCore (l : List Char) : Option Nat :=
  if isDigits l then some (digitsToNat l) else none

/-- Model of `str::parse::<usize>` (optional leading `+`, decimal digits,
64-bit range). -/
def parseUsize? (s : String) : Option Nat :=
  match s.toList with
  | '+' :: rest =>
    match parseNatCore rest with
    | some n => if n < 2 ^ 64 then some n else none
    | none => none
  | l =>
    match parseNatCore l with
    | some n => if n < 2 ^ 64 then some n else none
    | none => none

/-- Model of `str::parse::<i32>` (optional sign, decimal digits, 32-bit
range). -/
def parseI32? (s : String) : Option Int :=
  match s.toList with
  | '-' :: rest =>
    match parseNatCore rest with
    | some n => if n ≤ 2 ^ 31 then some (-(n : Int)) else none
    | none => none
  | '+' :: rest =>
    match parseNatCore rest with
    | some n => if n < 2 ^ 31 then some (n : Int) else none
    | none => none
  | l =>
    match parseNatCore l with
    | some n => if n < 2 ^ 31 then some (n : Int) else none
    | none => none

def decimalValue (intPart fracPart : List Char) : Rat :=
  (digitsToNat intPart : Rat) + (digitsToNat fracPart : Rat) / (10 : Rat) ^ fracPart.length

def parseDecCore (l : List Char) : Option Rat :=
  match l.span (fun c => c.isDigit) with
  | (intPart, rest) =>
    if intPart.isEmpty then none
    else
      match rest with
      | [] => some (digitsToNat intPart : Rat)
      | '.' :: frac =>
        if frac.all (fun c => c.isDigit) then some (decimalValue intPart frac) else none
      | _ => none

/-- Model of `str::parse::<f32>` on plain decimal literals, with exact
rational arithmetic in place of `f32` rounding. -/
def parseF32? (s : String) : Option Rat :=
  match s.toList with
  | '-' :: rest => (parseDecCore rest).map (fun q => -q)
  | '+' :: rest => parseDecCore rest
  | l => parseDecCore l

/-! ## Compressor state (`struct MidiProcessor`) -/

inductive NoteState
  | off
  | on
  | sustained
deriving DecidableEq, Repr

/-- `note_matrix[time][pitch]`, as a total function; the Rust code only ever
touches indices below `MAX_TIME_STEPS` and `MAX_PITCHES`. -/
abbrev Mat := Nat → Nat → NoteState

structure MidiProcessor where
  note_matrix : Mat
  time_quantum : Rat
  allowed_channels : Nat → Bool

/-- `MidiProcessor::new()` / `reset_state()`. -/
def init_processor : MidiProcessor :=
  { note_matrix := fun _ _ => NoteState.off
    time_quantum := 40
    allowed_channels := fun _ => true }

/-! ## Compressor per-line handlers -/

/-- `process_tempo_change` (lines 53-59): on a `Tempo` record with parseable
tempo and division fields, recompute the quantum; otherwise leave the state
unchanged.  This function cannot panic. -/
def process_tempo_change (s : MidiProcessor) (parts : List String) : MidiProcessor :=
  if parts.length ≥ 6 ∧ parts.getD 2 "" = "Tempo" then
    match parseF32? (parts.getD 3 ""), parseF32? (parts.getD 5 "") with
    | some tempo, some division =>
      { s with time_quantum := ((50000 : Rat) / tempo) * division }
    | _, _ => s
  else s

def set_allowed (a : Nat → Bool) (channel : Nat) (b : Bool) : Nat → Bool :=
  fun c => if c = channel then b else a c

/-- `process_instrument_change` (lines 61-68): on a `Program_c` record with
parseable channel and instrument fields, record whether the channel's
instrument is piano-like (0-7).  Writing `allowed_channels[channel]` with
`channel ≥ 128` indexes the `[bool; 128]` array out of bounds: `none`. -/
def process_instrument_change (s : MidiProcessor) (parts : List String) :
    Option MidiProcessor :=
  if parts.length ≥ 5 ∧ parts.getD 2 "" = "Program_c" then
    match parseUsize? (parts.getD 3 ""), parseI32? (parts.getD 4 "") with
    | some channel, some instrument =>
      if channel < 128 then
        let a := set_allowed s.allowed_channels channel
          (decide (0 ≤ instrument ∧ instrument ≤ 7))
        some { s with allowed_channels := a }
      else none
    | _, _ => some s
  else some s

/-- Point update of the note matrix (one Rust array-cell assignment). -/
def update_mat (m : Mat) (time pitch : Nat) (st : NoteState) : Mat :=
  fun t p => if t = time ∧ p = pitch then st else m t p

/-- `handle_note_on` (lines 98-102). -/
def handle_note_on (m : Mat) (time pitch : Nat) : Mat :=
  if m time pitch = NoteState.off then update_mat m time pitch NoteState.on else m

/-- The backward scan of `handle_note_off` (lines 106-109): starting from the
given step, walk downward while the state is not `On`, stopping at 0. -/
def findLastOn (m : Mat) (pitch : Nat) : Nat → Nat
  | 0 => 0
  | t + 1 => if m (t + 1) pitch = NoteState.on then t + 1 else findLastOn m pitch t

/-- `handle_note_off` (lines 104-119): find the last `On` step at or below
`time - 1`; if one is found, turn every `Off` cell in `[last_on, time)` into
`Sustained`. -/
def handle_note_off (m : Mat) (time pitch : Nat) : Mat :=
  let last_on := findLastOn m pitch (time - 1)
  if m last_on pitch = NoteState.on then
    (List.range' last_on (time - last_on)).foldl
      (fun acc t =>
        if acc t pitch = NoteState.off then update_mat acc t pitch NoteState.sustained
        else acc)
      m
  else m

/-- Model of Rust's `str::contains('"')`: whether a quote character occurs in
the string. -/
def contains_quote (s : String) : Bool :=
  s.toList.any (fun c => c = '\"')

/-- The event dispatch of `process_note_event` (lines 91-95). -/
def dispatch_note (m : Mat) (event_type : String) (velocity : Int)
    (time_step pitch : Nat) : Mat :=
  if event_type = "Note_on_c" ∧ velocity ≥ 1 then handle_note_on m time_step pitch
  else if (event_type = "Note_on_c" ∧ velocity = 0) ∨ event_type = "Note_off_c" then
    handle_note_off m time_step pitch
  else m

/-- `(ticks / quantum) as usize`. -/
def quantize (ticks quantum : Rat) : Nat :=
  (ticks / quantum).floor.toNat

/-- `process_note_event` (lines 70-96).  Lines with fewer than 6 fields or a
quote character in field 2 are ignored.  The track, channel, time, pitch and
velocity parses are `unwrap`ped: a failure is a panic (`none`), as is indexing
`allowed_channels` with a channel of 128 or more. -/
def process_note_event (s : MidiProcessor) (parts : List String) :
    Option MidiProcessor :=
  if parts.length < 6 ∨ contains_quote (parts.getD 2 "") then some s
  else
    match parseI32? (parts.getD 0 "") with
    | none => none
    | some track =>
      match parseUsize? (parts.getD 3 "") with
      | none => none
      | some channel =>
        if channel < 128 then
          if ¬ s.allowed_channels channel = true ∨ track > 8 then some s
          else
            match parseF32? (parts.getD 1 "") with
            | none => none
            | some ticks =>
              match parseUsize? (parts.getD 4 "") with
              | none => none
              | some pitch =>
                match parseI32? (parts.getD 5 "") with
                | none => none
                | some velocity =>
                  if quantize ticks s.time_quantum ≥ MAX_TIME_STEPS ∨ pitch ≥ MAX_PITCHES
                  then some s
                  else
                    let m := dispatch_note s.note_matrix (parts.getD 2 "") velocity
                      (quantize ticks s.time_quantum) pitch
                    some { s with note_matrix := m }
        else none

/-! ## Compressor output (`generate_output_files`, lines 121-150) -/

/-- `33 + (pitch as i32 - MIN_PITCH + transposition)` (line 135). -/
def glyph_code (pitch : Nat) (transposition : Int) : Int :=
  33 + ((pitch : Int) - MIN_PITCH + transposition)

/-- One time step's glyph run (lines 133-140): pitches from index 24 upward
whose state is not `Off` and whose glyph code lies in `[33, 126]`, in pitch
order, as ASCII code points. -/
def glyph_run (row : Nat → NoteState) (transposition : Int) : List Nat :=
  (List.range' 24 (MAX_PITCHES - 24)).filterMap (fun pitch =>
    if row pitch ≠ NoteState.off ∧
        33 ≤ glyph_code pitch transposition ∧ glyph_code pitch transposition ≤ 126
    then some (glyph_code pitch transposition).toNat
    else none)

/-- One time step's output (lines 142-147): the glyph run, followed by a
space only when the run is non-empty. -/
def emit_step (row : Nat → NoteState) (transposition : Int) : List Nat :=
  let line := glyph_run row transposition
  if line.isEmpty then line else line ++ [32]

/-- The output stream for one transposition, walking `steps` rows of the
matrix in order. -/
def emit_stream (m : Mat) (steps : Nat) (transposition : Int) : List Nat :=
  (List.range steps).flatMap (fun t => emit_step (m t) transposition)

/-- The full per-transposition output file: the code iterates over all
`MAX_TIME_STEPS` rows of `note_matrix`. -/
def generate_output (m : Mat) (transposition : Int) : List Nat :=
  emit_stream m MAX_TIME_STEPS transposition

/-- `for transposition in -6..6` (line 122). -/
def transpositions : List Int :=
  (List.range 12).map (fun i => (i : Int) - 6)

/-- `generate_output_files`: one stream per transposition. -/
def generate_output_files (m : Mat) : List (List Nat) :=
  transpositions.map (generate_output m)

/-! ## Decompressor state (`midicsv_decompressor/src/main.rs`) -/

structure MidiDecompressor where
  note_matrix : Nat → Nat → Bool
  current_time_step : Nat

/-- `MidiDecompressor::new()` / `reset_state()`. -/
def init_decompressor : MidiDecompressor :=
  { note_matrix := fun _ _ => false
    current_time_step := 0 }

/-- `process_note_char` (lines 52-57): `pitch = c as i32 - 32 - 1`; if the
pitch index is inside `[0, PITCH_RANGE)` the cell
`note_matrix[current_time_step][pitch]` is set — which indexes the
`MAX_TIME_STEPS`-row matrix out of bounds (`none`) when the cursor has run
past it.  An out-of-range pitch performs no indexing at all. -/
def process_note_char (d : MidiDecompressor) (c : Nat) : Option MidiDecompressor :=
  let pitch : Int := (c : Int) - 32 - 1
  if 0 ≤ pitch ∧ pitch < (PITCH_RANGE : Int) then
    if d.current_time_step < DEC_MAX_TIME_STEPS then
      let m := fun t p =>
        if t = d.current_time_step ∧ p = pitch.toNat then true else d.note_matrix t p
      some { d with note_matrix := m }
    else none
  else some d

/-- `process_compressed_line` (lines 42-50): a space (code 32) advances the
step cursor, a newline (code 10) is ignored, anything else goes through
`process_note_char`. -/
def process_compressed_line (d : MidiDecompressor) (line : List Nat) :
    Option MidiDecompressor :=
  line.foldlM
    (fun acc c =>
      if c = 32 then some { acc with current_time_step := acc.current_time_step + 1 }
      else if c = 10 then some acc
      else process_note_char acc c)
    d

/-- `load_compressed_file` (lines 25-40) on an already-read list of lines:
reset, process each line, then finalize by advancing the cursor once. -/
def load_compressed_file (lines : List (List Nat)) : Option MidiDecompressor :=
  match lines.foldlM process_compressed_line init_decompressor with
  | some d => some { d with current_time_step := d.current_time_step + 1 }
  | none => none

/-! ## Decompressor output (`write_note_events`, lines 83-115) -/

inductive EventKind
  | note_on
  | note_off
deriving DecidableEq, Repr

/-- One emitted note record `2, time, kind, 1, note, velocity`. -/
structure CsvNote where
  time : Nat
  kind : EventKind
  note : Nat
  velocity : Nat
deriving DecidableEq, Repr

/-- `write_note_on` (lines 99-106). -/
def write_note_on (time pitch : Nat) : CsvNote :=
  { time := time * TIME_QUANTUM
    kind := EventKind.note_on
    note := pitch + 21
    velocity := 127 }

/-- `write_note_off` (lines 108-115). -/
def write_note_off (time pitch : Nat) : CsvNote :=
  { time := time * TIME_QUANTUM
    kind := EventKind.note_off
    note := pitch + 21
    velocity := 0 }

/-- The per-cell body of `write_note_events` (lines 86-93): compare the cell
with the previous step's cell (`time > 0 && self.note_matrix[time-1][pitch]`)
and emit the edge event, if any. -/
def edge_event (d : MidiDecompressor) (time pitch : Nat) : Option CsvNote :=
  let current_note := d.note_matrix time pitch
  let previous_note := decide (time > 0) && d.note_matrix (time - 1) pitch
  match current_note, previous_note with
  | true, false => some (write_note_on time pitch)
  | false, true => some (write_note_off time pitch)
  | _, _ => none

/-- `write_note_events` (lines 83-97): for each step below the cursor and each
pitch index below `PITCH_RANGE`, emit the edge events in order. -/
def write_note_events (d : MidiDecompressor) : List CsvNote :=
  (List.range d.current_time_step).flatMap (fun time =>
    (List.range PITCH_RANGE).filterMap (fun pitch => edge_event d time pitch))

/-! ## Helper lemmas -/

theorem update_mat_apply (m : Mat) (time pitch t p : Nat) (st : NoteState) :
    update_mat m time pitch st t p = if t = time ∧ p = pitch then st else m t p := rfl

theorem findLastOn_le (m : Mat) (pitch : Nat) : ∀ t, findLastOn m pitch t ≤ t := by
  intro t
  induction t with
  | zero => simp [findLastOn]
  | succ n ih =>
    unfold findLastOn
    split
    · exact Nat.le_refl _
    · exact Nat.le_trans ih (Nat.le_succ n)

/-- The backward scan finds exactly the nearest `On` step at or below its
starting point. -/
theorem findLastOn_eq_of (m : Mat) (pitch j t : Nat) (hj : j ≤ t)
    (hon : m j pitch = NoteState.on)
    (habove : ∀ k, j < k → k ≤ t → m k pitch ≠ NoteState.on) :
    findLastOn m pitch t = j := by
  induction t with
  | zero =>
    have : j = 0 := Nat.le_zero.mp hj
    simp [findLastOn, this]
  | succ n ih =>
    unfold findLastOn
    by_cases hc : m (n + 1) pitch = NoteState.on
    · have hjn : j = n + 1 := by
        by_contra hne
        exact habove (n + 1) (by omega) (Nat.le_refl _) hc
      simp [hc, hjn]
    · rw [if_neg hc]
      have hjle : j ≤ n := by
        rcases Nat.lt_or_ge j (n + 1) with hlt | hge
        · omega
        · exact absurd (by omega : j = n + 1) (fun hh => hc (hh ▸ hon))
      exact ih hjle (fun k hk hk' => habove k hk (Nat.le_trans hk' (Nat.le_succ n)))

/-- Pointwise description of the sustain-marking loop of `handle_note_off`
(lines 113-117): a cell changes exactly when it is the scanned pitch, lies in
the marked interval, and was `Off`. -/
theorem sustain_foldl_apply (pitch : Nat) :
    ∀ (len j : Nat) (m : Mat) (t p : Nat),
      ((List.range' j len).foldl
        (fun acc u =>
          if acc u pitch = NoteState.off then update_mat acc u pitch NoteState.sustained
          else acc)
        m) t p
      = if p = pitch ∧ j ≤ t ∧ t < j + len ∧ m t pitch = NoteState.off
        then NoteState.sustained else m t p := by
  intro len
  induction len with
  | zero =>
    intro j m t p
    rw [show List.range' j 0 = [] from rfl, List.foldl_nil,
      if_neg (by rintro ⟨-, h1, h2, -⟩; omega)]
  | succ n ih =>
    intro j m t p
    simp only [List.range'_succ, List.foldl_cons]
    rw [ih (j + 1)]
    by_cases ht : t = j
    · subst ht
      rw [if_neg (by rintro ⟨-, h2, -, -⟩; omega)]
      have hiff : (p = pitch ∧ t ≤ t ∧ t < t + (n + 1) ∧ m t pitch = NoteState.off)
          ↔ (p = pitch ∧ m t pitch = NoteState.off) := by
        constructor
        · rintro ⟨a, -, -, d⟩
          exact ⟨a, d⟩
        · rintro ⟨a, d⟩
          exact ⟨a, Nat.le_refl t, by omega, d⟩
      rw [if_congr hiff rfl rfl]
      by_cases hmj : m t pitch = NoteState.off
      · rw [if_pos hmj, update_mat_apply]
        by_cases hp : p = pitch
        · simp [hp, hmj]
        · simp [hp]
      · rw [if_neg hmj, if_neg (fun hh => hmj hh.2)]
    · have hmt : ∀ q,
          (if m j pitch = NoteState.off then update_mat m j pitch NoteState.sustained
            else m) t q = m t q := by
        intro q
        split
        · rw [update_mat_apply, if_neg (fun hh => ht hh.1)]
        · rfl
      simp only [hmt]
      exact if_congr
        (by constructor <;> rintro ⟨a, b, c, d⟩ <;> exact ⟨a, by omega, by omega, d⟩)
        rfl rfl

/-! ## C4: sustain reconstruction -/

/-- C4.  A Note-on at step 2 followed by a Note-off at step 5 for the same
pitch, starting from the all-off matrix, marks step 2 `On`, steps 3 and 4
`Sustained`, and leaves step 5 and every later step `Off`. -/
theorem c4_sustain_reconstruction (p : Nat) :
    handle_note_off (handle_note_on init_processor.note_matrix 2 p) 5 p 2 p
        = NoteState.on
    ∧ handle_note_off (handle_note_on init_processor.note_matrix 2 p) 5 p 3 p
        = NoteState.sustained
    ∧ handle_note_off (handle_note_on init_processor.note_matrix 2 p) 5 p 4 p
        = NoteState.sustained
    ∧ ∀ t, 5 ≤ t →
        handle_note_off (handle_note_on init_processor.note_matrix 2 p) 5 p t p
          = NoteState.off := by
  have hm0 : init_processor.note_matrix 2 p = NoteState.off := rfl
  have h1 : handle_note_on init_processor.note_matrix 2 p
      = update_mat init_processor.note_matrix 2 p NoteState.on := by
    unfold handle_note_on
    rw [if_pos hm0]
  have hm1 : ∀ t q, handle_note_on init_processor.note_matrix 2 p t q
      = if t = 2 ∧ q = p then NoteState.on else NoteState.off := by
    intro t q
    rw [h1, update_mat_apply]
    rfl
  have hfind : findLastOn (handle_note_on init_processor.note_matrix 2 p) p 4 = 2 := by
    apply findLastOn_eq_of
    · omega
    · simp [hm1]
    · intro k hk hk'
      simp [hm1]
      omega
  have hoff : handle_note_off (handle_note_on init_processor.note_matrix 2 p) 5 p
      = (List.range' 2 3).foldl
        (fun acc u =>
          if acc u p = NoteState.off then update_mat acc u p NoteState.sustained
          else acc)
        (handle_note_on init_processor.note_matrix 2 p) := by
    unfold handle_note_off
    simp only [show (5 : Nat) - 1 = 4 from rfl, hfind]
    rw [if_pos (by simp [hm1])]
  refine ⟨?_, ?_, ?_, ?_⟩
  · rw [hoff, sustain_foldl_apply]
    simp [hm1]
  · rw [hoff, sustain_foldl_apply]
    simp [hm1]
  · rw [hoff, sustain_foldl_apply]
    simp [hm1]
  · intro t ht
    rw [hoff, sustain_foldl_apply]
    rw [if_neg (by omega)]
    simp [hm1]
    omega

/-- Witness for C4 at pitch 60 and the later step 7. -/
theorem c4_witness :
    handle_note_off (handle_note_on init_processor.note_matrix 2 60) 5 60 2 60
        = NoteState.on
    ∧ handle_note_off (handle_note_on init_processor.note_matrix 2 60) 5 60 7 60
        = NoteState.off :=
  ⟨(c4_sustain_reconstruction 60).1,
    (c4_sustain_reconstruction 60).2.2.2 7 (by omega)⟩

/-! ## C5: unmatched note-off is a no-op -/

/-- C5.  If no step before `time` holds the pitch in the `On` state, then
`handle_note_off` leaves the matrix completely unchanged (and, being a total
function, raises no error). -/
theorem c5_unmatched_off_noop (m : Mat) (time pitch : Nat)
    (h : ∀ j, j < time → m j pitch ≠ NoteState.on) :
    handle_note_off m time pitch = m := by
  unfold handle_note_off
  cases time with
  | zero =>
    simp only [Nat.zero_sub, findLastOn, Nat.sub_zero, List.range']
    split <;> rfl
  | succ n =>
    have hle : findLastOn m pitch n ≤ n := findLastOn_le m pitch n
    have hne : m (findLastOn m pitch n) pitch ≠ NoteState.on :=
      h (findLastOn m pitch n) (Nat.lt_succ_of_le hle)
    simp only [Nat.add_sub_cancel]
    exact if_neg hne

/-- Witness for C5: a Note-off at step 3 on the fresh all-off matrix changes
nothing. -/
theorem c5_witness :
    handle_note_off init_processor.note_matrix 3 5 = init_processor.note_matrix :=
  c5_unmatched_off_noop init_processor.note_matrix 3 5
    (fun j _ => by simp [init_processor])

/-! ## Glyph-run lemmas -/

/-- Every code in a glyph run lies in the printable band `[33, 126]`. -/
theorem mem_glyph_run_bounds {row : Nat → NoteState} {tr : Int} {c : Nat}
    (h : c ∈ glyph_run row tr) : 33 ≤ c ∧ c ≤ 126 := by
  unfold glyph_run at h
  rw [List.mem_filterMap] at h
  obtain ⟨p, -, hp⟩ := h
  by_cases hc : row p ≠ NoteState.off ∧
      33 ≤ glyph_code p tr ∧ glyph_code p tr ≤ 126
  · rw [if_pos hc] at hp
    have hb := hc.2
    have hceq : (glyph_code p tr).toNat = c := Option.some_injective _ hp
    omega
  · rw [if_neg hc] at hp
    exact absurd hp (by simp)

/-- Characterization of glyph-run membership: `c` occurs in the run exactly
when some pitch from index 24 up is sounding and maps to `c` inside the
printable band. -/
theorem mem_glyph_run_iff (row : Nat → NoteState) (tr : Int) (c : Nat) :
    c ∈ glyph_run row tr ↔
      ∃ p, 24 ≤ p ∧ p < MAX_PITCHES ∧ row p ≠ NoteState.off ∧
        33 ≤ glyph_code p tr ∧ glyph_code p tr ≤ 126 ∧
        c = (glyph_code p tr).toNat := by
  unfold glyph_run
  rw [List.mem_filterMap]
  constructor
  · rintro ⟨p, hpmem, hp⟩
    rw [List.mem_range'_1] at hpmem
    by_cases hc : row p ≠ NoteState.off ∧
        33 ≤ glyph_code p tr ∧ glyph_code p tr ≤ 126
    · rw [if_pos hc] at hp
      have h110 : MAX_PITCHES = 110 := rfl
      exact ⟨p, hpmem.1, by have := hpmem.2; omega,
        hc.1, hc.2.1, hc.2.2, (Option.some_injective _ hp).symm⟩
    · rw [if_neg hc] at hp
      exact absurd hp (by simp)
  · rintro ⟨p, h24, hmax, hoff, hlo, hhi, hc⟩
    have h110 : MAX_PITCHES = 110 := rfl
    refine ⟨p, ?_, ?_⟩
    · rw [List.mem_range'_1]
      exact ⟨h24, by omega⟩
    · rw [if_pos ⟨hoff, hlo, hhi⟩, hc]

/-- A row in which every pitch from index 24 up is `Off` yields an empty
glyph run. -/
theorem glyph_run_empty {row : Nat → NoteState} (tr : Int)
    (h : ∀ p, 24 ≤ p → p < MAX_PITCHES → row p = NoteState.off) :
    glyph_run row tr = [] := by
  unfold glyph_run
  rw [List.filterMap_eq_nil_iff]
  intro p hpmem
  rw [List.mem_range'_1] at hpmem
  rw [if_neg]
  rintro ⟨hoff, -, -⟩
  have h110 : MAX_PITCHES = 110 := rfl
  exact hoff (h p hpmem.1 (by have := hpmem.2; omega))

/-- A matrix in which every pitch from index 24 up is `Off` everywhere emits
an empty stream. -/
theorem emit_stream_empty {m : Mat} (steps : Nat) (tr : Int)
    (h : ∀ t p, 24 ≤ p → p < MAX_PITCHES → m t p = NoteState.off) :
    emit_stream m steps tr = [] := by
  unfold emit_stream
  rw [List.flatMap_eq_nil_iff]
  intro t _
  unfold emit_step
  rw [glyph_run_empty tr (h t)]
  rfl

/-- Each step contributes one delimiter exactly when its glyph run is
non-empty. -/
theorem count_space_emit_step (row : Nat → NoteState) (tr : Int) :
    (emit_step row tr).count 32
      = if (glyph_run row tr).isEmpty then 0 else 1 := by
  unfold emit_step
  by_cases h : (glyph_run row tr).isEmpty
  · rw [if_pos h, if_pos h, List.isEmpty_iff.mp h]
    rfl
  · rw [if_neg h, if_neg h, List.count_append]
    have h32 : (glyph_run row tr).count 32 = 0 := by
      rw [List.count_eq_zero]
      intro hmem
      have := mem_glyph_run_bounds hmem
      omega
    rw [h32]
    rfl

/-- Delimiter count of a stream of `steps` rows: one per row with a
non-empty glyph run. -/
theorem count_space_emit_stream (m : Mat) (tr : Int) :
    ∀ steps, (emit_stream m steps tr).count 32
      = ((List.range steps).filter
          (fun t => !(glyph_run (m t) tr).isEmpty)).length := by
  intro steps
  induction steps with
  | zero => rfl
  | succ n ih =>
    unfold emit_stream
    rw [List.range_succ, List.flatMap_append, List.count_append,
      List.filter_append, List.length_append]
    unfold emit_stream at ih
    rw [ih]
    congr 1
    rw [show ([n].flatMap fun t => emit_step (m t) tr) = emit_step (m n) tr by
      simp [List.flatMap_cons]]
    rw [count_space_emit_step]
    by_cases h : (glyph_run (m n) tr).isEmpty
    · rw [if_pos h]
      simp [h]
    · rw [if_neg h]
      simp [h]

/-! ## C1: delimiter per step -/

/-- Counterexample to C1.  On the initial (all-off) matrix — the matrix of
any processed event log with no admitted note events — the transposition-0
stream contains no delimiter at all, while `MAX_TIME_STEPS = 150000` time
steps were walked: the delimiter is omitted for every empty glyph run. -/
theorem c1_counterexample :
    ¬ ((generate_output init_processor.note_matrix 0).count 32 = MAX_TIME_STEPS) := by
  unfold generate_output
  rw [@emit_stream_empty init_processor.note_matrix MAX_TIME_STEPS 0
    (fun _ _ _ _ => rfl)]
  have h150 : MAX_TIME_STEPS = 150000 := rfl
  simp
  omega

/-- C1 as amended: the encoder appends one delimiter after each *non-empty*
glyph run and none after an empty run, so the number of delimiters in each
output stream equals the number of time steps whose glyph run is non-empty. -/
theorem c1_amended_delimiter_count (m : Mat) (tr : Int) :
    (generate_output m tr).count 32
      = ((List.range MAX_TIME_STEPS).filter
          (fun t => !(glyph_run (m t) tr).isEmpty)).length :=
  count_space_emit_stream m tr MAX_TIME_STEPS

/-! ## C7: transpositions and boundary clipping -/

theorem mem_emit_step_iff (row : Nat → NoteState) (tr : Int) (c : Nat) :
    c ∈ emit_step row tr ↔
      c ∈ glyph_run row tr ∨ (glyph_run row tr ≠ [] ∧ c = 32) := by
  unfold emit_step
  by_cases h : (glyph_run row tr).isEmpty
  · rw [if_pos h]
    have he := List.isEmpty_iff.mp h
    simp [he]
  · rw [if_neg h]
    have hne : glyph_run row tr ≠ [] := fun hh => h (by rw [hh]; rfl)
    rw [List.mem_append]
    simp [hne]

theorem mem_generate_output_iff (m : Mat) (tr : Int) (c : Nat) :
    c ∈ generate_output m tr ↔
      ∃ t, t < MAX_TIME_STEPS ∧ c ∈ emit_step (m t) tr := by
  unfold generate_output emit_stream
  rw [List.mem_flatMap]
  constructor
  · rintro ⟨t, ht, hc⟩
    exact ⟨t, List.mem_range.mp ht, hc⟩
  · rintro ⟨t, ht, hc⟩
    exact ⟨t, List.mem_range.mpr ht, hc⟩

/-- A matrix whose only sounding cell is pitch index 23 at step 0. -/
def pitch23_matrix : Mat :=
  fun t p => if t = 0 ∧ p = 23 then NoteState.on else NoteState.off

/-- Counterexample to C7.  Pitch index 23 is sounding at step 0 and its
transposition-0 glyph `33 + (23 - 22 + 0) = 34` lies in `[33, 126]`, yet the
stream does not contain it: the emitter starts at pitch index 24
(`.skip(24)`), so the claim's "exactly when the glyph is in range" is false
for sounding pitches below the floor. -/
theorem c7_counterexample :
    pitch23_matrix 0 23 ≠ NoteState.off
    ∧ 33 ≤ glyph_code 23 0 ∧ glyph_code 23 0 ≤ 126
    ∧ (glyph_code 23 0).toNat ∉ generate_output pitch23_matrix 0 := by
  have hempty : emit_stream pitch23_matrix MAX_TIME_STEPS 0 = [] :=
    @emit_stream_empty pitch23_matrix MAX_TIME_STEPS 0 (fun t p h24 _ => by
      unfold pitch23_matrix
      rw [if_neg]
      rintro ⟨-, hp⟩
      omega)
  refine ⟨by decide, by decide, by decide, ?_⟩
  unfold generate_output
  rw [hempty]
  simp

/-- C7 as amended: the encoder produces exactly 12 streams, one per
transposition in `[-6, 5]`; a sounding pitch *of index at least 24* is
encoded in a stream as `33 + (pitch_index - 22 + transposition)` exactly when
that value lies in `[33, 126]` (so an out-of-range pitch is omitted from that
stream only and appears in every stream where it is in range), and every
non-delimiter code of a stream arises from such a pitch — sounding pitches
below index 24 are never encoded. -/
theorem c7_amended_transposition_clipping (m : Mat) :
    (generate_output_files m).length = 12
    ∧ (∀ tr : Int, ∀ row : Nat → NoteState, ∀ p : Nat,
        24 ≤ p → p < MAX_PITCHES → row p ≠ NoteState.off →
        ((glyph_code p tr).toNat ∈ glyph_run row tr ↔
          33 ≤ glyph_code p tr ∧ glyph_code p tr ≤ 126))
    ∧ (∀ tr : Int, ∀ t p : Nat,
        t < MAX_TIME_STEPS → 24 ≤ p → p < MAX_PITCHES → m t p ≠ NoteState.off →
        33 ≤ glyph_code p tr → glyph_code p tr ≤ 126 →
        (glyph_code p tr).toNat ∈ generate_output m tr)
    ∧ (∀ tr : Int, ∀ c : Nat, c ∈ generate_output m tr →
        c = 32 ∨ ∃ t, t < MAX_TIME_STEPS ∧ ∃ p, 24 ≤ p ∧ p < MAX_PITCHES ∧
          m t p ≠ NoteState.off ∧ (c : Int) = glyph_code p tr) := by
  refine ⟨by rw [generate_output_files, List.length_map]; decide, ?_, ?_, ?_⟩
  · intro tr row p h24 hmax hoff
    constructor
    · intro hmem
      rw [mem_glyph_run_iff] at hmem
      obtain ⟨q, -, -, -, hlo, hhi, hc⟩ := hmem
      unfold glyph_code MIN_PITCH at hc hlo hhi ⊢
      omega
    · intro hband
      rw [mem_glyph_run_iff]
      exact ⟨p, h24, hmax, hoff, hband.1, hband.2, rfl⟩
  · intro tr t p ht h24 hmax hoff hlo hhi
    rw [mem_generate_output_iff]
    refine ⟨t, ht, ?_⟩
    rw [mem_emit_step_iff]
    left
    rw [mem_glyph_run_iff]
    exact ⟨p, h24, hmax, hoff, hlo, hhi, rfl⟩
  · intro tr c hmem
    rw [mem_generate_output_iff] at hmem
    obtain ⟨t, ht, hstep⟩ := hmem
    rw [mem_emit_step_iff] at hstep
    rcases hstep with hrun | ⟨-, hc32⟩
    · right
      rw [mem_glyph_run_iff] at hrun
      obtain ⟨p, h24, hmax, hoff, hlo, hhi, hc⟩ := hrun
      exact ⟨t, ht, p, h24, hmax, hoff, by omega⟩
    · exact Or.inl hc32

/-- A matrix whose only sounding cell is pitch index 60 at step 0. -/
def pitch60_matrix : Mat :=
  fun t p => if t = 0 ∧ p = 60 then NoteState.on else NoteState.off

/-- Witness for C7: pitch 60 sounding at step 0 appears in the
transposition-0 stream as glyph code 71. -/
theorem c7_witness : (71 : Nat) ∈ generate_output pitch60_matrix 0 := by
  have h := (c7_amended_transposition_clipping pitch60_matrix).2.2.1 0 0 60
    (by decide) (by decide) (by decide) (by decide) (by decide) (by decide)
  have he : (glyph_code 60 0).toNat = 71 := by decide
  rw [he] at h
  exact h

/-! ## C6: decoder edge events -/

theorem edge_event_eq_some_iff (d : MidiDecompressor) (time pitch : Nat)
    (e : CsvNote) :
    edge_event d time pitch = some e ↔
      (d.note_matrix time pitch = true
        ∧ (time = 0 ∨ d.note_matrix (time - 1) pitch = false)
        ∧ e = write_note_on time pitch)
      ∨ (d.note_matrix time pitch = false ∧ 0 < time
        ∧ d.note_matrix (time - 1) pitch = true
        ∧ e = write_note_off time pitch) := by
  unfold edge_event
  rcases hcur : d.note_matrix time pitch with _ | _
  · rcases hprev : decide (time > 0) && d.note_matrix (time - 1) pitch with _ | _
    · -- current false, previous false: no event
      change (none : Option CsvNote) = some e ↔ _
      rw [Bool.and_eq_false_iff] at hprev
      constructor
      · intro h
        exact Option.noConfusion h
      · rintro (⟨h1, -, -⟩ | ⟨-, h2, h3, -⟩)
        · exact Bool.noConfusion h1
        · rcases hprev with hp | hp
          · simp at hp
            omega
          · rw [h3] at hp
            exact Bool.noConfusion hp
    · -- current false, previous true: Note-off
      change some (write_note_off time pitch) = some e ↔ _
      rw [Bool.and_eq_true] at hprev
      constructor
      · intro h
        refine Or.inr ⟨rfl, ?_, hprev.2, (Option.some_injective _ h).symm⟩
        have := of_decide_eq_true hprev.1
        omega
      · rintro (⟨h1, -, -⟩ | ⟨-, -, -, he⟩)
        · exact Bool.noConfusion h1
        · rw [he]
  · rcases hprev : decide (time > 0) && d.note_matrix (time - 1) pitch with _ | _
    · -- current true, previous false: Note-on
      change some (write_note_on time pitch) = some e ↔ _
      rw [Bool.and_eq_false_iff] at hprev
      constructor
      · intro h
        refine Or.inl ⟨rfl, ?_, (Option.some_injective _ h).symm⟩
        rcases hprev with hp | hp
        · simp at hp
          omega
        · exact Or.inr hp
      · rintro (⟨-, -, he⟩ | ⟨h1, -, -⟩)
        · rw [he]
        · exact Bool.noConfusion h1
    · -- current true, previous true: no event
      change (none : Option CsvNote) = some e ↔ _
      rw [Bool.and_eq_true] at hprev
      constructor
      · intro h
        exact Option.noConfusion h
      · rintro (⟨-, h2, -⟩ | ⟨h1, -, -⟩)
        · have := of_decide_eq_true hprev.1
          rcases h2 with h0 | hmat
          · omega
          · rw [hprev.2] at hmat
            exact Bool.noConfusion hmat
        · exact Bool.noConfusion h1

/-- C6.  For every in-bounds loaded active-matrix, the emitted note events
are exactly: a Note-on with velocity 127 at `step * 40`, MIDI note
`pitch + 21`, at each false-to-true transition (step 0 compared against
all-false), and a Note-off with velocity 0 at each true-to-false transition,
for steps below the cursor and pitch indices below 87 — and nothing else. -/
theorem c6_decoder_edge_events (d : MidiDecompressor) (e : CsvNote)
    (_hcur : d.current_time_step ≤ DEC_MAX_TIME_STEPS) :
    e ∈ write_note_events d ↔
      ∃ time, time < d.current_time_step ∧ ∃ pitch, pitch < PITCH_RANGE ∧
        ((d.note_matrix time pitch = true
            ∧ (time = 0 ∨ d.note_matrix (time - 1) pitch = false)
            ∧ e = write_note_on time pitch)
          ∨ (d.note_matrix time pitch = false ∧ 0 < time
            ∧ d.note_matrix (time - 1) pitch = true
            ∧ e = write_note_off time pitch)) := by
  unfold write_note_events
  rw [List.mem_flatMap]
  constructor
  · rintro ⟨time, htime, hin⟩
    rw [List.mem_filterMap] at hin
    obtain ⟨pitch, hpitch, he⟩ := hin
    exact ⟨time, List.mem_range.mp htime, pitch, List.mem_range.mp hpitch,
      (edge_event_eq_some_iff d time pitch e).mp he⟩
  · rintro ⟨time, htime, pitch, hpitch, hcase⟩
    refine ⟨time, List.mem_range.mpr htime, ?_⟩
    rw [List.mem_filterMap]
    exact ⟨pitch, List.mem_range.mpr hpitch,
      (edge_event_eq_some_iff d time pitch e).mpr hcase⟩

/-- A two-step loaded matrix sounding pitch 5 at steps 0 and 1. -/
def two_step_decomp : MidiDecompressor :=
  { note_matrix := fun t p => decide ((t = 0 ∨ t = 1) ∧ p = 5)
    current_time_step := 3 }

/-- Witness for C6: on `two_step_decomp` the Note-on for pitch 5 at time 0
is emitted. -/
theorem c6_witness : write_note_on 0 5 ∈ write_note_events two_step_decomp :=
  (c6_decoder_edge_events two_step_decomp (write_note_on 0 5) (by decide)).mpr
    ⟨0, by decide, 5, by decide, Or.inl ⟨by decide, Or.inl rfl, rfl⟩⟩

/-! ## C3: range errors -/

theorem process_compressed_line_cons (d : MidiDecompressor) (c : Nat)
    (l : List Nat) :
    process_compressed_line d (c :: l)
      = (if c = 32 then some { d with current_time_step := d.current_time_step + 1 }
          else if c = 10 then some d
          else process_note_char d c).bind
          (fun d' => process_compressed_line d' l) := by
  unfold process_compressed_line
  rw [List.foldlM_cons]
  rfl

theorem process_compressed_line_append (d : MidiDecompressor) (l1 l2 : List Nat) :
    process_compressed_line d (l1 ++ l2)
      = (process_compressed_line d l1).bind
          (fun d' => process_compressed_line d' l2) := by
  unfold process_compressed_line
  rw [List.foldlM_append]
  rfl

/-- A run of `n` spaces advances the decoder cursor by `n` and nothing else. -/
theorem process_spaces (n : Nat) : ∀ d : MidiDecompressor,
    process_compressed_line d (List.replicate n 32)
      = some { d with current_time_step := d.current_time_step + n } := by
  induction n with
  | zero =>
    intro d
    rfl
  | succ n ih =>
    intro d
    rw [List.replicate_succ, process_compressed_line_cons, if_pos rfl]
    show process_compressed_line
      { d with current_time_step := d.current_time_step + 1 }
      (List.replicate n 32) = _
    rw [ih]
    have harith : d.current_time_step + 1 + n = d.current_time_step + (n + 1) := by
      omega
    rw [harith]

/-- Counterexample to C3.  Feed the decoder a line of 20000 spaces followed by
the glyph `A` (code 65, pitch index 32, in range): the cursor has walked past
the 20000-row matrix, and writing the cell indexes it out of bounds —
processing aborts instead of silently dropping the character. -/
theorem c3_counterexample :
    process_compressed_line init_decompressor
      (List.replicate 20000 32 ++ [65]) = none := by
  rw [process_compressed_line_append, process_spaces 20000 init_decompressor]
  show process_compressed_line
    { init_decompressor with current_time_step := init_decompressor.current_time_step + 20000 }
    [65] = none
  rw [process_compressed_line_cons, if_neg (by decide), if_neg (by decide)]
  have hchar : process_note_char
      { init_decompressor with
        current_time_step := init_decompressor.current_time_step + 20000 }
      65 = none := by
    unfold process_note_char
    rw [if_pos (by decide), if_neg (by decide)]
  rw [hchar]
  rfl

/-- C3 as amended: an encoder event whose quantized step or pitch is outside
the matrix is silently dropped with no state change, and a decoder character
whose mapped pitch index is outside `[0, 87)` is silently dropped with no
state change; but a decoder character with in-range pitch arriving when the
step cursor has passed `DEC_MAX_TIME_STEPS` makes processing abort. -/
theorem c3_amended_range_errors (s : MidiProcessor) (parts : List String) :
    (∀ (track : Int) (channel pitch : Nat) (ticks : Rat) (velocity : Int),
      parts.length ≥ 6 → contains_quote (parts.getD 2 "") = false →
      parseI32? (parts.getD 0 "") = some track →
      parseUsize? (parts.getD 3 "") = some channel → channel < 128 →
      s.allowed_channels channel = true → track ≤ 8 →
      parseF32? (parts.getD 1 "") = some ticks →
      parseUsize? (parts.getD 4 "") = some pitch →
      parseI32? (parts.getD 5 "") = some velocity →
      (quantize ticks s.time_quantum ≥ MAX_TIME_STEPS ∨ pitch ≥ MAX_PITCHES) →
      process_note_event s parts = some s)
    ∧ (∀ (d : MidiDecompressor) (c : Nat),
        ¬ (0 ≤ (c : Int) - 32 - 1 ∧ (c : Int) - 32 - 1 < (PITCH_RANGE : Int)) →
        process_note_char d c = some d)
    ∧ (∀ (d : MidiDecompressor) (c : Nat),
        (0 ≤ (c : Int) - 32 - 1 ∧ (c : Int) - 32 - 1 < (PITCH_RANGE : Int)) →
        DEC_MAX_TIME_STEPS ≤ d.current_time_step →
        process_note_char d c = none) := by
  refine ⟨?_, ?_, ?_⟩
  · intro track channel pitch ticks velocity h6 hq htrack hchan hlt hallow htr8
      hticks hpitch hvel hbound
    unfold process_note_event
    rw [if_neg (by
      rintro (h | h)
      · omega
      · rw [hq] at h
        exact Bool.noConfusion h)]
    simp only [htrack, hchan]
    rw [if_pos hlt, if_neg (by
      rintro (h | h)
      · exact h hallow
      · omega)]
    simp only [hticks, hpitch, hvel]
    rw [if_pos hbound]
  · intro d c h
    unfold process_note_char
    rw [if_neg h]
  · intro d c h hcur
    unfold process_note_char
    rw [if_pos h, if_neg (by omega)]

/-- Witness for C3: a note event with pitch 110 (out of the 110-pitch matrix)
is dropped with no state change, and the decoder drops code 200 (pitch index
167, out of range) with no state change. -/
theorem c3_witness :
    process_note_event init_processor ["1", "0", "Note_on_c", "0", "110", "64"]
      = some init_processor
    ∧ process_note_char init_decompressor 200 = some init_decompressor := by
  constructor
  · exact (c3_amended_range_errors init_processor
      ["1", "0", "Note_on_c", "0", "110", "64"]).1 1 0 110 0 64
      (by decide) (by decide) (by decide) (by decide) (by decide) rfl
      (by decide) (by decide) (by decide) (by decide) (Or.inr (by decide))
  · exact (c3_amended_range_errors init_processor []).2.1 init_decompressor 200
      (by decide)

/-! ## C2: parse errors -/

/-- Counterexample to C2.  A 6-field line with an unquoted kind token whose
track field `"abc"` is not numeric hits `parts[0].parse().unwrap()`:
processing aborts (Rust panics) instead of skipping only that line. -/
theorem c2_counterexample :
    process_note_event init_processor ["abc", "0", "Note_on_c", "0", "60", "64"]
      = none := rfl

/-- C2 as amended: a malformed numeric field causes the line to be skipped
with no state change in `Tempo` and `Program_c` handling, and a wrong field
count (fewer than 6 fields) causes note handling to skip the line; but on a
line with at least 6 fields and no quote in its kind field, a malformed
numeric field (here the track field) aborts processing instead of skipping
the line. -/
theorem c2_amended_parse_errors (s : MidiProcessor) (parts : List String) :
    (parts.length ≥ 6 → parts.getD 2 "" = "Tempo" →
      (parseF32? (parts.getD 3 "") = none ∨ parseF32? (parts.getD 5 "") = none) →
      process_tempo_change s parts = s)
    ∧ (parts.length ≥ 5 → parts.getD 2 "" = "Program_c" →
      (parseUsize? (parts.getD 3 "") = none ∨ parseI32? (parts.getD 4 "") = none) →
      process_instrument_change s parts = some s)
    ∧ (parts.length < 6 → process_note_event s parts = some s)
    ∧ (parts.length ≥ 6 → contains_quote (parts.getD 2 "") = false →
      parseI32? (parts.getD 0 "") = none → process_note_event s parts = none) := by
  refine ⟨?_, ?_, ?_, ?_⟩
  · intro h6 hkind hbad
    unfold process_tempo_change
    rw [if_pos ⟨h6, hkind⟩]
    rcases h3 : parseF32? (parts.getD 3 "") with _ | tempo
    · rfl
    · rcases h5 : parseF32? (parts.getD 5 "") with _ | division
      · rfl
      · rcases hbad with h | h
        · rw [h3] at h
          exact Option.noConfusion h
        · rw [h5] at h
          exact Option.noConfusion h
  · intro h5 hkind hbad
    unfold process_instrument_change
    rw [if_pos ⟨h5, hkind⟩]
    rcases h3 : parseUsize? (parts.getD 3 "") with _ | channel
    · rfl
    · rcases h4 : parseI32? (parts.getD 4 "") with _ | instrument
      · rfl
      · rcases hbad with h | h
        · rw [h3] at h
          exact Option.noConfusion h
        · rw [h4] at h
          exact Option.noConfusion h
  · intro h6
    unfold process_note_event
    rw [if_pos (Or.inl h6)]
  · intro h6 hq htrack
    unfold process_note_event
    rw [if_neg (by
      rintro (h | h)
      · omega
      · rw [hq] at h
        exact Bool.noConfusion h)]
    simp only [htrack]

/-- Witness for C2 at a concrete malformed-track line. -/
theorem c2_witness :
    process_note_event init_processor ["xy", "0", "Note_on_c", "0", "60", "64"]
      = none :=
  (c2_amended_parse_errors init_processor
    ["xy", "0", "Note_on_c", "0", "60", "64"]).2.2.2
    (by decide) (by decide) (by decide)

/-! ## C8: quoted string rejection -/

/-- Counterexample to C8.  The quote check looks only at field 2 (the kind
token): a `Tempo` line with a quoted literal in field 4 is *not* rejected —
it updates the tempo quantum from 40 to `(50000 / 50000) * 2 = 2`. -/
theorem c8_counterexample :
    contains_quote (["1", "0", "Tempo", "50000", "\"x\"", "2"].getD 4 "") = true
    ∧ (process_tempo_change init_processor
        ["1", "0", "Tempo", "50000", "\"x\"", "2"]).time_quantum
      ≠ init_processor.time_quantum := by
  have h50000 : parseF32? ("50000") = some ((50000 : Nat) : Rat) := rfl
  have h2 : parseF32? ("2") = some ((2 : Nat) : Rat) := rfl
  have hq : (process_tempo_change init_processor
      ["1", "0", "Tempo", "50000", "\"x\"", "2"]).time_quantum
      = ((50000 : Rat) / ((50000 : Nat) : Rat)) * ((2 : Nat) : Rat) := by
    unfold process_tempo_change
    rw [if_pos ⟨by decide, rfl⟩]
    rw [show (["1", "0", "Tempo", "50000", "\"x\"", "2"].getD 3 "") = "50000" from rfl,
      show (["1", "0", "Tempo", "50000", "\"x\"", "2"].getD 5 "") = "2" from rfl,
      h50000, h2]
  constructor
  · decide
  · intro hcontra
    rw [hq, show init_processor.time_quantum = (40 : Rat) from rfl] at hcontra
    norm_num at hcontra

/-- C8 as amended: only a quoted string literal in the event-kind field
(field 2) causes the note-event handler to reject the line with no state
change; a quoted literal in another field does not by itself reject the
line. -/
theorem c8_amended_quote_rejection (s : MidiProcessor) (parts : List String)
    (h : contains_quote (parts.getD 2 "") = true) :
    process_note_event s parts = some s := by
  unfold process_note_event
  by_cases h6 : parts.length < 6
  · rw [if_pos (Or.inl h6)]
  · rw [if_pos (Or.inr h)]

/-- Witness for C8 at a concrete quoted-kind line. -/
theorem c8_witness :
    process_note_event init_processor ["1", "0", "\"Text_t\"", "1", "60", "64"]
      = some init_processor :=
  c8_amended_quote_rejection init_processor
    ["1", "0", "\"Text_t\"", "1", "60", "64"] (by decide)

/-! ## C9: Note-on with velocity zero -/

theorem dispatch_on_zero_eq (m : Mat) (t p : Nat) :
    dispatch_note m "Note_on_c" 0 t p = handle_note_off m t p := by
  unfold dispatch_note
  rw [if_neg (by rintro ⟨-, h⟩; omega), if_pos (Or.inl ⟨rfl, rfl⟩)]

theorem dispatch_off_eq (m : Mat) (v : Int) (t p : Nat) :
    dispatch_note m "Note_off_c" v t p = handle_note_off m t p := by
  unfold dispatch_note
  rw [if_neg (by rintro ⟨h, -⟩; exact absurd h (by decide)),
    if_pos (Or.inr rfl)]

/-- C9.  A `Note_on_c` with velocity 0 takes the backward-scan note-off path,
exactly like a `Note_off_c`; only `Note_on_c` with velocity at least 1 takes
the note-on path (a negative velocity does nothing); and an admitted
`Note_on_c` line with a velocity field parsing to 0 is processed identically
to the same line with kind `Note_off_c`. -/
theorem c9_velocity_zero_note_off (m : Mat) (t p : Nat) (v : Int) :
    dispatch_note m "Note_on_c" 0 t p = handle_note_off m t p
    ∧ dispatch_note m "Note_off_c" v t p = handle_note_off m t p
    ∧ (v ≥ 1 → dispatch_note m "Note_on_c" v t p = handle_note_on m t p)
    ∧ (v < 0 → dispatch_note m "Note_on_c" v t p = m)
    ∧ (∀ (s : MidiProcessor) (f0 f1 f3 f4 f5 : String),
        parseI32? f5 = some 0 →
        process_note_event s [f0, f1, "Note_on_c", f3, f4, f5]
          = process_note_event s [f0, f1, "Note_off_c", f3, f4, f5]) := by
  refine ⟨dispatch_on_zero_eq m t p, dispatch_off_eq m v t p, ?_, ?_, ?_⟩
  · intro hv
    unfold dispatch_note
    rw [if_pos ⟨rfl, hv⟩]
  · intro hv
    unfold dispatch_note
    rw [if_neg (by rintro ⟨-, h⟩; omega), if_neg (by
      rintro (⟨-, h⟩ | h)
      · omega
      · exact absurd h (by decide))]
  · intro s f0 f1 f3 f4 f5 h5
    unfold process_note_event
    simp only [List.getD_cons_succ, List.getD_cons_zero, List.length_cons,
      List.length_nil]
    rw [if_neg (by
      rintro (h | h)
      · omega
      · exact absurd h (by decide)), if_neg (by
      rintro (h | h)
      · omega
      · exact absurd h (by decide))]
    rcases hf0 : parseI32? f0 with _ | track
    · rfl
    · dsimp only
      rcases hf3 : parseUsize? f3 with _ | channel
      · rfl
      · dsimp only
        by_cases hch : channel < 128
        · rw [if_pos hch, if_pos hch]
          by_cases hskip : ¬ s.allowed_channels channel = true ∨ track > 8
          · rw [if_pos hskip, if_pos hskip]
          · rw [if_neg hskip, if_neg hskip]
            rcases hf1 : parseF32? f1 with _ | ticks
            · rfl
            · dsimp only
              rcases hf4 : parseUsize? f4 with _ | pitch
              · rfl
              · dsimp only
                rw [h5]
                dsimp only
                by_cases hbound : quantize ticks s.time_quantum ≥ MAX_TIME_STEPS
                    ∨ pitch ≥ MAX_PITCHES
                · rw [if_pos hbound, if_pos hbound]
                · rw [if_neg hbound, if_neg hbound,
                    dispatch_on_zero_eq, dispatch_off_eq]
        · rw [if_neg hch, if_neg hch]

/-- Witness for C9: on a concrete admitted line, velocity-0 `Note_on_c` and
`Note_off_c` process identically. -/
theorem c9_witness :
    process_note_event init_processor ["1", "0", "Note_on_c", "0", "60", "0"]
      = process_note_event init_processor ["1", "0", "Note_off_c", "0", "60", "0"] :=
  (c9_velocity_zero_note_off init_processor.note_matrix 0 0 0).2.2.2.2
    init_processor "1" "0" "0" "60" "0" (by decide)

/-! ## C10: channel out of bounds -/

/-- C10.  Per-line processing is total only for channels below 128: a
well-formed `Program_c` or note line whose channel field parses to 128 or
more indexes the 128-entry `allowed_channels` array out of bounds, and
processing aborts instead of dropping the event. -/
theorem c10_channel_out_of_bounds (s : MidiProcessor) (parts : List String) :
    (∀ channel instrument, parts.length ≥ 5 → parts.getD 2 "" = "Program_c" →
      parseUsize? (parts.getD 3 "") = some channel →
      parseI32? (parts.getD 4 "") = some instrument → 128 ≤ channel →
      process_instrument_change s parts = none)
    ∧ (∀ track channel, parts.length ≥ 6 →
      contains_quote (parts.getD 2 "") = false →
      parseI32? (parts.getD 0 "") = some track →
      parseUsize? (parts.getD 3 "") = some channel → 128 ≤ channel →
      process_note_event s parts = none) := by
  constructor
  · intro channel instrument h5 hkind hchan hinstr hge
    unfold process_instrument_change
    rw [if_pos ⟨h5, hkind⟩]
    simp only [hchan, hinstr]
    rw [if_neg (by omega)]
  · intro track channel h6 hq htrack hchan hge
    unfold process_note_event
    rw [if_neg (by
      rintro (h | h)
      · omega
      · rw [hq] at h
        exact Bool.noConfusion h)]
    simp only [htrack, hchan]
    rw [if_neg (by omega)]

/-- Witness for C10: channel 200 on a `Program_c` line aborts. -/
theorem c10_witness :
    process_instrument_change init_processor ["1", "0", "Program_c", "200", "0"]
      = none :=
  (c10_channel_out_of_bounds init_processor
    ["1", "0", "Program_c", "200", "0"]).1 200 0
    (by decide) (by decide) (by decide) (by decide) (by decide)

end SimpleMidi
